import Mathlib

/-!
Shallow embedding of the core state logic of the AiKidgame chocolate-packing
game.  The definitions below are direct translations of `App.tsx` (game-level
score state: `startGame`, `nextLevel`, `resetGame`, `awardPoints`,
`completeRun`) and `GamePage.tsx` (level catalog `LEVELS`, level
initialization, box/chocolate operations, the packing validator
`checkPackingComplete`, and the coloring-completion transition
`checkColoringComplete`).  JavaScript numbers that only ever hold integers are
modelled as `Int` (or `Nat` where the source value is a count), JavaScript
`x | null` as `Option`, and `setTimeout` callbacks as an explicit list of
delayed actions returned next to the new state.
-/

/-- Chocolate flavours, from the `type` field of `ChocolateItem` in
`GamePage.tsx` (`'cocoa' | 'orange' | 'strawberry'`). -/
inductive ChocType where
  | cocoa
  | orange
  | strawberry
deriving DecidableEq

/-- `ChocolateItem` of `GamePage.tsx`.  The source id is the string
`chocolate-<k>` for a sequential counter `k`; we model the id by the counter
`k` itself (the map `k ↦ "chocolate-" ++ toString k` is injective, so nothing
is lost). -/
structure Chocolate where
  id : Nat
  type : ChocType
  placed : Bool
deriving DecidableEq

/-- `BoxItem` of `GamePage.tsx`.  Box ids in the source are strings built from
`Date.now()` and `Math.random()`; we keep them as strings supplied by the
environment. -/
structure Box where
  id : String
  chocolates : List Chocolate
  color : Option String
deriving DecidableEq

/-- An entry of the `COLORS` constant of `GamePage.tsx`. -/
structure ColorDef where
  color : String
  name : String
  emoji : String
deriving DecidableEq

/-- The `COLORS` constant of `GamePage.tsx`. -/
def COLORS : List ColorDef :=
  [ { color := "#8B4513", name := "شکلاتی", emoji := "🍫" },
    { color := "#FF8C00", name := "پرتقالی", emoji := "🍊" },
    { color := "#DC143C", name := "توت فرنگی", emoji := "🍓" } ]

/-- One entry of the `LEVELS` constant of `GamePage.tsx`. -/
structure Level where
  chocolates : Nat
  name : String
  presetBoxes : Bool
  specialMessage : Option String
deriving DecidableEq

/-- The `LEVELS` constant of `GamePage.tsx`. -/
def LEVELS : List Level :=
  [ { chocolates := 6, name := "مرحله اول", presetBoxes := true, specialMessage := none },
    { chocolates := 8, name := "مرحله دوم", presetBoxes := false, specialMessage := none },
    { chocolates := 12, name := "مرحله سوم", presetBoxes := false, specialMessage := none },
    { chocolates := 7, name := "مرحله چهارم", presetBoxes := false,
      specialMessage := some "سفارش جدید 7 تا شکلات هست، توی تقسیم بندی دقت کن." } ]

/-- JavaScript array indexing `l[i]` for a possibly negative integer index:
`undefined` (here `none`) whenever `i` is negative or at least the length. -/
def jsArrayGet {α : Type} (l : List α) (i : Int) : Option α :=
  if 0 ≤ i then l.get? i.toNat else none

/-- `currentLevelData` of `GamePage.tsx`:
`LEVELS[gameState.currentLevel - 1] || LEVELS[LEVELS.length - 1]`.
A level object is always truthy, so the `||` fallback fires exactly when the
index is out of range. -/
def currentLevelData (currentLevel : Int) : Level :=
  (jsArrayGet LEVELS (currentLevel - 1)).getD (LEVELS.getLast (by decide))

/-- The per-level game phase of `GamePage.tsx` (`gamePhase` state). -/
inductive Phase where
  | packing
  | coloring
  | completed
  | pixi
deriving DecidableEq

/-- The `GamePage` component's mutable state that the claims are about:
`chocolates`, `boxes`, `gamePhase`, `message`, `selectedColor`. -/
structure PageState where
  chocolates : List Chocolate
  boxes : List Box
  gamePhase : Phase
  message : String
  selectedColor : Option ColorDef
deriving DecidableEq

/-- The `GameState` of `App.tsx`. -/
structure GameState where
  currentLevel : Int
  score : Int
  isPlaying : Bool
  totalScore : Int
deriving DecidableEq

/-- The initial `useState` value of `App.tsx`. -/
def initialGameState : GameState :=
  { currentLevel := 1, score := 0, isPlaying := false, totalScore := 0 }

/-- `startGame` of `App.tsx`. -/
def startGame (gs : GameState) : GameState :=
  { gs with isPlaying := true, currentLevel := 1, score := 0 }

/-- `nextLevel` of `App.tsx`: `currentLevel := Math.min(currentLevel + 1, 4)`. -/
def nextLevel (gs : GameState) : GameState :=
  { gs with currentLevel := min (gs.currentLevel + 1) 4 }

/-- `resetGame` of `App.tsx` (totalScore intentionally kept). -/
def resetGame (gs : GameState) : GameState :=
  { gs with currentLevel := 1, score := 0, isPlaying := true }

/-- `awardPoints` of `App.tsx`. -/
def awardPoints (points : Int) (gs : GameState) : GameState :=
  { gs with score := gs.score + points }

/-- `completeRun` of `App.tsx`: fold the current run score into `totalScore`. -/
def completeRun (gs : GameState) : GameState :=
  { gs with totalScore := gs.totalScore + gs.score }

/-- Number of chocolates of the `i`-th type generated by `initializeLevel`:
`Math.floor(n / 3)` plus one extra for each of the first `n % 3` types. -/
def typeCount (n i : Nat) : Nat :=
  n / 3 + (if i < n % 3 then 1 else 0)

/-- The type assigned by `initializeLevel` to the chocolate with sequential id
`i`: the source pushes `typeCount n 0` cocoa items first, then
`typeCount n 1` orange ones, then strawberry, with one running id counter. -/
def chocTypeAt (n i : Nat) : ChocType :=
  if i < typeCount n 0 then ChocType.cocoa
  else if i < typeCount n 0 + typeCount n 1 then ChocType.orange
  else ChocType.strawberry

/-- The chocolate list built by `initializeLevel` before its presentational
shuffle, in generation order (ids `0, 1, ...`, all unplaced). -/
def mkChocolates (n : Nat) : List Chocolate :=
  (List.range n).map fun i => { id := i, type := chocTypeAt n i, placed := false }

/-- The level-start message set by `initializeLevel`: the level's special
message when present, otherwise the generic order message. -/
def initMessage (lvl : Level) : String :=
  match lvl.specialMessage with
  | some m => m
  | none => toString lvl.chocolates ++ " تا سفارش برای جشن مدرسه داریم باید سفارش ها رو آماده کنیم."

/-- The preset boxes built by `initializeLevel` on preset levels: empty,
uncolored, with environment-supplied fresh ids. -/
def presetBoxList (ids : List String) : List Box :=
  ids.map fun i => { id := i, chocolates := [], color := none }

/-- The `GamePage` state right after `initializeLevel` ran for level `lvl`:
`shuffled` is the (presentationally shuffled) chocolate list, `presetIds` the
ids of the preset boxes (used only when `lvl.presetBoxes`); `selectedColor`
is at its initial `useState` value `null`. -/
def initState (lvl : Level) (shuffled : List Chocolate) (presetIds : List String) : PageState :=
  { chocolates := shuffled,
    boxes := if lvl.presetBoxes then presetBoxList presetIds else [],
    gamePhase := Phase.packing,
    message := initMessage lvl,
    selectedColor := none }

/-- `addBox` of `GamePage.tsx`: unconditionally append one empty box (the
fresh id, `box-<Date.now()>-<Math.random()>` in the source, is supplied by
the environment).  Note the function itself has no preset-level guard. -/
def addBox (newId : String) (bs : List Box) : List Box :=
  bs ++ [{ id := newId, chocolates := [], color := none }]

/-- The user-level add-box action: on preset levels `GamePage` renders the
add-box button `disabled` and without a click handler, so the click does
nothing; on free levels the button invokes `addBox`. -/
def clickAddBox (lvl : Level) (newId : String) (bs : List Box) : List Box :=
  if lvl.presetBoxes then bs else addBox newId bs

/-- `clearBoxes` of `GamePage.tsx`: a guarded no-op on preset levels;
otherwise remove all boxes, unplace every chocolate, clear the selected
color and return to the packing phase. -/
def clearBoxes (lvl : Level) (s : PageState) : PageState :=
  if lvl.presetBoxes then s
  else
    { s with boxes := [],
             chocolates := s.chocolates.map fun c => { c with placed := false },
             selectedColor := none,
             gamePhase := Phase.packing }

/-- The per-chocolate update done by `handleDropChocolate`:
`c.id === chocolate.id ? { ...c, placed: true } : c`. -/
def setPlaced (i : Nat) (c : Chocolate) : Chocolate :=
  if c.id = i then { c with placed := true } else c

/-- The per-box update done by `handleDropChocolate`: append the dropped
chocolate to the box whose id matches. -/
def appendChoc (boxId : String) (c : Chocolate) (b : Box) : Box :=
  if b.id = boxId then { b with chocolates := b.chocolates ++ [c] } else b

/-- `handleDropChocolate` of `GamePage.tsx`: early return when the dragged
item's `placed` snapshot is true; otherwise mark the pool chocolate with the
same id placed and append the dropped item to the box with id `boxId`. -/
def handleDropChocolate (boxId : String) (c : Chocolate)
    (cs : List Chocolate) (bs : List Box) : List Chocolate × List Box :=
  if c.placed then (cs, bs)
  else (cs.map (setPlaced c.id), bs.map (appendChoc boxId c))

/-- The per-box update done by `handleDropColor`. -/
def setBoxColor (boxId : String) (col : ColorDef) (b : Box) : Box :=
  if b.id = boxId then { b with color := some col.color } else b

/-- `handleDropColor` of `GamePage.tsx`. -/
def handleDropColor (boxId : String) (col : ColorDef) (bs : List Box) : List Box :=
  bs.map (setBoxColor boxId col)

/-- `chocolates.filter(c => c.placed).length`. -/
def placedCount (cs : List Chocolate) : Nat :=
  (cs.filter fun c => c.placed).length

/-- Number of chocolates still in the warehouse (`placed = false`). -/
def unplacedCount (cs : List Chocolate) : Nat :=
  (cs.filter fun c => !c.placed).length

/-- Total number of chocolates held inside boxes. -/
def boxSum (bs : List Box) : Nat :=
  (bs.map fun b => b.chocolates.length).sum

/-- The result of the spec's distribution validator `isPackingComplete`:
the `complete`/`valid` pair read off lines 340-343 of `GamePage.tsx`. -/
structure PackingResult where
  complete : Bool
  valid : Bool
deriving DecidableEq

/-- The packing validator of `checkPackingComplete` (`GamePage.tsx` 340-343)
as a pure function: `complete` is the outer condition (all chocolates placed
and at least one box), `valid` the `isEvenlyDistributed` check that every
box holds exactly `Math.floor(levelItemCount / boxes.length)` chocolates. -/
def isPackingComplete (cs : List Chocolate) (bs : List Box) (levelItemCount : Nat) :
    PackingResult :=
  if placedCount cs = levelItemCount ∧ 0 < bs.length then
    { complete := true,
      valid := bs.all fun b => b.chocolates.length == levelItemCount / bs.length }
  else
    { complete := false, valid := false }

/-- A callback scheduled with `setTimeout`, tagged with its delay in
milliseconds.  The only delayed callback in `checkPackingComplete` clears the
message. -/
inductive Delayed where
  | clearMessage (ms : Nat)
deriving DecidableEq

/-- The success message set by `checkPackingComplete`. -/
def packingSuccessMessage : String :=
  "آفرین شکلات ها رو دسته بندی کردی حالا باید رنگ جعبه ها شو مشخص کنی روی رنگی که میخوای کلیک کن و بعدش روی جعبه کلیک کن تا جعبه رنگ رنگ بشه"

/-- The error message set by `checkPackingComplete`. -/
def packingErrorMessage : String :=
  "اشتباه تقسیم کردی دوباره شکلات ها رو تقسیم کن"

/-- `checkPackingComplete` of `GamePage.tsx` (lines 339-366).  Returns the new
synchronous state together with the list of scheduled delayed callbacks: when
all chocolates are placed and the distribution is even, move to the coloring
phase; when it is uneven on a non-preset level, set the error message, empty
every box, unplace every chocolate, clear the selected color and stay in the
packing phase — all synchronously — and schedule only the 2000 ms message
clear; on a preset level (level 1) the uneven case does nothing. -/
def checkPackingComplete (lvl : Level) (s : PageState) : PageState × List Delayed :=
  if placedCount s.chocolates = lvl.chocolates ∧ 0 < s.boxes.length then
    if s.boxes.all fun b => b.chocolates.length == lvl.chocolates / s.boxes.length then
      ({ s with gamePhase := Phase.coloring, message := packingSuccessMessage }, [])
    else if lvl.presetBoxes then
      (s, [])
    else
      ({ s with message := packingErrorMessage,
                boxes := s.boxes.map fun b => { b with chocolates := [], color := none },
                chocolates := s.chocolates.map fun c => { c with placed := false },
                selectedColor := none,
                gamePhase := Phase.packing },
       [Delayed.clearMessage 2000])
  else
    (s, [])

/-- JavaScript truthiness of a `string | null` value: `null` and the empty
string are falsy. -/
def jsTruthy : Option String → Bool
  | none => false
  | some s => !(s == "")

/-- The coloring-completion condition of `checkColoringComplete`:
`boxes.length > 0 && boxes.every(box => box.color)`. -/
def isColoringComplete (bs : List Box) : Bool :=
  decide (0 < bs.length) && bs.all fun b => jsTruthy b.color

/-- The completion message set by `checkColoringComplete`. -/
def coloringDoneMessage : String :=
  "اوه! چقدر قشنگ شد! همه جعبه‌ها مثل رنگین‌کمون شدن! 🌈✨"

/-- The `GamePage`-state part of `checkColoringComplete`: when coloring is
complete, move to the completed phase and set the completion message. -/
def checkColoringPage (s : PageState) : PageState :=
  if isColoringComplete s.boxes then
    { s with gamePhase := Phase.completed, message := coloringDoneMessage }
  else s

/-- `checkColoringComplete` of `GamePage.tsx` (lines 368-387) together with
its effect on the `App.tsx` state: when coloring is complete it awards the
fixed 10 points (`onAwardPoints(10)`), and when the current level is the last
(`gameState.currentLevel === LEVELS.length`) it additionally calls
`onCompleteRun`.  React applies the two functional `setState` updates in
order, so `completeRun` sees the score already increased by 10. -/
def checkColoringComplete (gs : GameState) (s : PageState) : GameState × PageState :=
  if isColoringComplete s.boxes then
    (let gs1 := awardPoints 10 gs
     if gs.currentLevel = (LEVELS.length : Int) then completeRun gs1 else gs1,
     { s with gamePhase := Phase.completed, message := coloringDoneMessage })
  else
    (gs, s)

/-- One user-driven (or scheduled) event acting on the `GamePage` state:
chocolate drops, color drops, the two box buttons, the two automatic
completion checks run by the `useEffect`, and the firing of the scheduled
message clear. -/
inductive Op where
  | dropChocolate (boxId : String) (c : Chocolate)
  | dropColor (boxId : String) (col : ColorDef)
  | addBox (newId : String)
  | clearBoxes
  | checkPacking
  | checkColoring
  | clearMessage
deriving DecidableEq

/-- Apply one event to the `GamePage` state (for `checkPacking`, the
synchronous part of `checkPackingComplete`). -/
def applyOp (lvl : Level) (s : PageState) : Op → PageState
  | Op.dropChocolate boxId c =>
      let r := handleDropChocolate boxId c s.chocolates s.boxes
      { s with chocolates := r.1, boxes := r.2 }
  | Op.dropColor boxId col => { s with boxes := handleDropColor boxId col s.boxes }
  | Op.addBox newId => { s with boxes := addBox newId s.boxes }
  | Op.clearBoxes => clearBoxes lvl s
  | Op.checkPacking => (checkPackingComplete lvl s).1
  | Op.checkColoring => checkColoringPage s
  | Op.clearMessage => { s with message := "" }

/-- Apply a sequence of events in order. -/
def applyOps (lvl : Level) (s : PageState) (ops : List Op) : PageState :=
  ops.foldl (applyOp lvl) s

/-- The `GamePage` states reachable from a freshly initialized level through
events as the UI can actually deliver them: the initial chocolate list is
some shuffle of the generated one and the preset box ids are distinct; a
chocolate drop carries the drag snapshot of a currently unplaced warehouse
chocolate and lands on an existing box; a new box gets a fresh id
(`Date.now()`/`Math.random()` in the source). -/
inductive Reach (lvl : Level) : PageState → Prop where
  | init (shuffled : List Chocolate) (presetIds : List String)
      (hperm : shuffled.Perm (mkChocolates lvl.chocolates))
      (hids : presetIds.Nodup) :
      Reach lvl (initState lvl shuffled presetIds)
  | dropChocolate (s : PageState) (boxId : String) (c : Chocolate)
      (hs : Reach lvl s)
      (hbox : boxId ∈ s.boxes.map Box.id)
      (hunplaced : c.placed = false)
      (hpool : ∃ pc ∈ s.chocolates, pc.id = c.id ∧ pc.placed = false) :
      Reach lvl (applyOp lvl s (Op.dropChocolate boxId c))
  | dropColor (s : PageState) (boxId : String) (col : ColorDef)
      (hs : Reach lvl s) :
      Reach lvl (applyOp lvl s (Op.dropColor boxId col))
  | addBox (s : PageState) (newId : String)
      (hs : Reach lvl s)
      (hfresh : newId ∉ s.boxes.map Box.id) :
      Reach lvl (applyOp lvl s (Op.addBox newId))
  | clearBoxes (s : PageState) (hs : Reach lvl s) :
      Reach lvl (applyOp lvl s Op.clearBoxes)
  | checkPacking (s : PageState) (hs : Reach lvl s) :
      Reach lvl (applyOp lvl s Op.checkPacking)
  | checkColoring (s : PageState) (hs : Reach lvl s) :
      Reach lvl (applyOp lvl s Op.checkColoring)
  | clearMessage (s : PageState) (hs : Reach lvl s) :
      Reach lvl (applyOp lvl s Op.clearMessage)

/-- One `App.tsx`-level operation on the game-wide state. -/
inductive AppOp where
  | startGame
  | nextLevel
  | resetGame
  | awardPoints (points : Int)
  | completeRun
deriving DecidableEq

/-- Apply one `App.tsx` operation. -/
def applyAppOp (gs : GameState) : AppOp → GameState
  | AppOp.startGame => startGame gs
  | AppOp.nextLevel => nextLevel gs
  | AppOp.resetGame => resetGame gs
  | AppOp.awardPoints p => awardPoints p gs
  | AppOp.completeRun => completeRun gs

/-- Apply a sequence of `App.tsx` operations in order. -/
def applyAppOps (gs : GameState) (ops : List AppOp) : GameState :=
  ops.foldl applyAppOp gs

/-- The combined invariant maintained by all `GamePage` operations: the
chocolates in boxes and the unplaced ones partition the level's item count,
the placed count matches the boxed count, and chocolate and box ids are
distinct. -/
def PoolBoxInv (lvl : Level) (s : PageState) : Prop :=
  boxSum s.boxes + unplacedCount s.chocolates = lvl.chocolates
  ∧ placedCount s.chocolates = boxSum s.boxes
  ∧ (s.chocolates.map Chocolate.id).Nodup
  ∧ (s.boxes.map Box.id).Nodup

/-- Test fixture: `n` chocolates, all already placed. -/
def placedChocList (n : Nat) : List Chocolate :=
  (List.range n).map fun i => { id := i, type := ChocType.cocoa, placed := true }

/-- Test fixture: an uncolored box holding `k` chocolates. -/
def boxWithCount (bid : String) (k : Nat) : Box :=
  { id := bid,
    chocolates := (List.range k).map fun i => { id := 100 + i, type := ChocType.cocoa, placed := false },
    color := none }

/-- Test fixture: the two preset boxes of level 1, still empty. -/
def presetDemoBoxes : List Box :=
  [ { id := "box-p0", chocolates := [], color := none },
    { id := "box-p1", chocolates := [], color := none } ]

/-- Test fixture for level 2: all 8 chocolates placed, distributed 3/3/2
over three boxes — complete but unevenly divided. -/
def c3State : PageState :=
  { chocolates := placedChocList 8,
    boxes := [boxWithCount "a" 3, boxWithCount "b" 3, boxWithCount "c" 2],
    gamePhase := Phase.packing,
    message := "",
    selectedColor := none }

/-- Test fixture for level 1: all 6 chocolates placed, distributed 4/2 over
the two preset boxes — complete but unevenly divided. -/
def c4State : PageState :=
  { chocolates := placedChocList 6,
    boxes := [boxWithCount "a" 4, boxWithCount "b" 2],
    gamePhase := Phase.packing,
    message := "",
    selectedColor := none }

/-- Test fixture: a fully colored single-box page state in the coloring
phase. -/
def c7State : PageState :=
  { chocolates := placedChocList 6,
    boxes := [{ id := "a", chocolates := [], color := some "#8B4513" }],
    gamePhase := Phase.coloring,
    message := "",
    selectedColor := none }

/-- Test fixture: game-wide state sitting on the last level with a positive
run score. -/
def c7GameState : GameState :=
  { currentLevel := 4, score := 30, isPlaying := true, totalScore := 12 }

/-- Test fixture: an event sequence containing a chocolate drop whose target
box id matches no existing box. -/
def c5DemoOps : List Op :=
  [Op.addBox "b", Op.dropChocolate "missing" { id := 0, type := ChocType.cocoa, placed := false }]

/-- Test fixture: the state reached by running `c5DemoOps` from a freshly
initialized level 2. -/
def c5Demo : PageState :=
  applyOps (currentLevelData 2) (initState (currentLevelData 2) (mkChocolates 8) []) c5DemoOps

/-! ## Helper lemmas -/

theorem map_id_of_eq {α : Type} (l : List α) (f : α → α) (h : ∀ a ∈ l, f a = a) :
    l.map f = l := by
  induction l with
  | nil => rfl
  | cons a t ih => simp [h a (by simp), ih fun x hx => h x (by simp [hx])]

theorem placed_add_unplaced (cs : List Chocolate) :
    placedCount cs + unplacedCount cs = cs.length := by
  induction cs with
  | nil => rfl
  | cons c t ih =>
      unfold placedCount unplacedCount at ih ⊢
      cases hc : c.placed <;> simp [List.filter_cons, hc] <;> omega

theorem sum_eq_length_mul_of_all_eq (l : List Nat) (k : Nat) (h : ∀ x ∈ l, x = k) :
    l.sum = l.length * k := by
  induction l with
  | nil => simp
  | cons a t ih =>
      have ha : a = k := h a (by simp)
      have ht : ∀ x ∈ t, x = k := fun x hx => h x (by simp [hx])
      simp [ha, ih ht, List.length_cons]
      ring

/-! ## C1: the packing validator's complete/valid conditions -/

/-- C1: for every game state, `isPackingComplete` reports `complete` exactly
when the number of placed chocolates equals the level's item count and at
least one box exists; and when complete, it reports `valid` exactly when
every box's content count equals `itemCount / boxCount` (floor division by
the current number of boxes). -/
theorem isPackingComplete_complete_valid_iff (cs : List Chocolate) (bs : List Box) (n : Nat) :
    ((isPackingComplete cs bs n).complete = true ↔ placedCount cs = n ∧ 0 < bs.length)
    ∧ ((isPackingComplete cs bs n).complete = true →
        ((isPackingComplete cs bs n).valid = true ↔
          ∀ b ∈ bs, b.chocolates.length = n / bs.length)) := by
  unfold isPackingComplete
  by_cases h : placedCount cs = n ∧ 0 < bs.length
  · rw [if_pos h]
    refine ⟨by simpa using h, fun _ => ?_⟩
    simp [List.all_eq_true]
  · rw [if_neg h]
    simp [h]

/-- Witness for C1 at a concrete complete, evenly distributed state. -/
theorem isPackingComplete_complete_valid_iff_witness :
    (isPackingComplete (placedChocList 6) [boxWithCount "a" 3, boxWithCount "b" 3] 6).complete = true
    ∧ (isPackingComplete (placedChocList 6) [boxWithCount "a" 3, boxWithCount "b" 3] 6).valid = true := by
  have h := isPackingComplete_complete_valid_iff (placedChocList 6)
    [boxWithCount "a" 3, boxWithCount "b" 3] 6
  have hc := h.1.mpr (by decide)
  exact ⟨hc, (h.2 hc).mpr (by decide)⟩

/-! ## C8: total, clamped level lookup -/

/-- C8: level lookup never fails: for every integer level index the lookup
`currentLevelData` yields one of the defined levels, and any index outside
`[1, 4]` yields the last defined level (level 4). -/
theorem currentLevelData_total_and_clamped (i : Int) :
    currentLevelData i ∈ LEVELS
    ∧ ((i < 1 ∨ 4 < i) → currentLevelData i = LEVELS.getLast (by decide)) := by
  constructor
  · unfold currentLevelData
    cases hg : jsArrayGet LEVELS (i - 1) with
    | none => exact List.getLast_mem (by decide)
    | some lvl =>
        have hmem : lvl ∈ LEVELS := by
          unfold jsArrayGet at hg
          split at hg
          · exact List.get?_mem hg
          · cases hg
        simpa [hg] using hmem
  · intro hi
    have hnone : jsArrayGet LEVELS (i - 1) = none := by
      unfold jsArrayGet
      rcases hi with h1 | h4
      · rw [if_neg (by omega)]
      · rw [if_pos (by omega)]
        refine List.get?_eq_none.mpr ?_
        have hlen : LEVELS.length = 4 := by decide
        omega
    unfold currentLevelData
    rw [hnone]
    rfl

/-- Witness for C8 at the out-of-range index 99. -/
theorem currentLevelData_total_and_clamped_witness :
    currentLevelData 99 ∈ LEVELS ∧ currentLevelData 99 = LEVELS.getLast (by decide) :=
  ⟨(currentLevelData_total_and_clamped 99).1,
   (currentLevelData_total_and_clamped 99).2 (Or.inr (by decide))⟩

/-! ## C2: uneven divisions are always rejected -/

/-- C2: for every arrangement in which the boxes hold all `n` items, if `n`
is not divisible by the number of boxes then the validator reports
`valid = false` — in particular on level 4 (7 items, a prime count) every
box count in 2..6 is rejected for any arrangement. -/
theorem uneven_division_always_invalid (cs : List Chocolate) (bs : List Box) (n : Nat)
    (hsum : boxSum bs = n) (hmod : n % bs.length ≠ 0) :
    (isPackingComplete cs bs n).valid = false := by
  unfold isPackingComplete
  split
  · refine Bool.eq_false_iff.mpr fun hall => ?_
    rw [List.all_eq_true] at hall
    have hx : ∀ x ∈ bs.map fun b => b.chocolates.length, x = n / bs.length := by
      intro x hxm
      rcases List.mem_map.mp hxm with ⟨b, hb, rfl⟩
      exact beq_iff_eq.mp (hall b hb)
    have hsum2 : boxSum bs = bs.length * (n / bs.length) := by
      have h := sum_eq_length_mul_of_all_eq _ _ hx
      simpa [boxSum] using h
    have hdm := Nat.div_add_mod n bs.length
    omega
  · rfl

/-- Witness for C2: on level 4's item count (7), a 4/3 split over two boxes
is rejected. -/
theorem uneven_division_always_invalid_witness :
    (isPackingComplete [] [boxWithCount "a" 4, boxWithCount "b" 3]
      (currentLevelData 4).chocolates).valid = false :=
  uneven_division_always_invalid [] [boxWithCount "a" 4, boxWithCount "b" 3]
    (currentLevelData 4).chocolates (by decide) (by decide)

/-! ## C4: the preset level is exempt from invalid-distribution feedback -/

/-- C4: on a preset-box level (level 1), when the packing check finds the
distribution complete but invalid, nothing happens: the whole page state —
items, boxes, selected color, message and phase — is returned unchanged and
no callback is scheduled. -/
theorem preset_level_invalid_no_feedback (lvl : Level) (s : PageState)
    (hpreset : lvl.presetBoxes = true)
    (hcomplete : placedCount s.chocolates = lvl.chocolates ∧ 0 < s.boxes.length)
    (huneven : (s.boxes.all fun b =>
        b.chocolates.length == lvl.chocolates / s.boxes.length) = false) :
    checkPackingComplete lvl s = (s, []) := by
  unfold checkPackingComplete
  rw [if_pos hcomplete, huneven, hpreset]
  rfl

/-- Witness for C4: level 1 with its 6 chocolates split 4/2 over the two
preset boxes is left completely untouched by the check. -/
theorem preset_level_invalid_no_feedback_witness :
    checkPackingComplete (currentLevelData 1) c4State = (c4State, []) :=
  preset_level_invalid_no_feedback (currentLevelData 1) c4State
    (by decide) (by decide) (by decide)

/-! ## C3: invalid distribution on free levels: error plus immediate reset -/

/-- C3 counterexample: the claim says the boxes are cleared only after the
fixed delay, but `checkPackingComplete` performs the whole retry-reset
synchronously.  At this concrete invalid level-2 state (8 chocolates placed
3/3/2 over three boxes) the immediate result already differs from the input
boxes — every box is already emptied — while the only scheduled delayed
callback is the 2000 ms message clear, which does not touch the boxes. -/
theorem reset_is_immediate_not_delayed :
    (checkPackingComplete (currentLevelData 2) c3State).1.boxes ≠ c3State.boxes
    ∧ ((checkPackingComplete (currentLevelData 2) c3State).1.boxes.all
        fun b => b.chocolates.isEmpty) = true
    ∧ (checkPackingComplete (currentLevelData 2) c3State).2
        = [Delayed.clearMessage 2000] := by
  decide

/-- C3 (amended): on a non-preset level, when the packing check finds the
distribution complete but invalid, it sets the error message and immediately
(synchronously) clears every box's contents, resets every item's placed flag
to false and clears the color selection, with the phase remaining Packing;
the fixed 2000 ms delay only clears the message afterwards. -/
theorem invalid_distribution_retry_reset (lvl : Level) (s : PageState)
    (hpreset : lvl.presetBoxes = false)
    (hcomplete : placedCount s.chocolates = lvl.chocolates ∧ 0 < s.boxes.length)
    (huneven : (s.boxes.all fun b =>
        b.chocolates.length == lvl.chocolates / s.boxes.length) = false) :
    (checkPackingComplete lvl s).1.message = packingErrorMessage
    ∧ (∀ b ∈ (checkPackingComplete lvl s).1.boxes, b.chocolates = [] ∧ b.color = none)
    ∧ (∀ c ∈ (checkPackingComplete lvl s).1.chocolates, c.placed = false)
    ∧ (checkPackingComplete lvl s).1.selectedColor = none
    ∧ (checkPackingComplete lvl s).1.gamePhase = Phase.packing
    ∧ (checkPackingComplete lvl s).2 = [Delayed.clearMessage 2000] := by
  unfold checkPackingComplete
  rw [if_pos hcomplete, huneven, hpreset]
  refine ⟨rfl, ?_, ?_, rfl, rfl, rfl⟩
  · intro b hb
    rcases List.mem_map.mp hb with ⟨b0, _, rfl⟩
    exact ⟨rfl, rfl⟩
  · intro c hc
    rcases List.mem_map.mp hc with ⟨c0, _, rfl⟩
    rfl

/-- Witness for C3 (amended) at the concrete invalid level-2 state. -/
theorem invalid_distribution_retry_reset_witness :
    (checkPackingComplete (currentLevelData 2) c3State).1.gamePhase = Phase.packing
    ∧ (checkPackingComplete (currentLevelData 2) c3State).2
        = [Delayed.clearMessage 2000] := by
  have h := invalid_distribution_retry_reset (currentLevelData 2) c3State
    (by decide) (by decide) (by decide)
  exact ⟨h.2.2.2.2.1, h.2.2.2.2.2⟩

/-! ## C6: behavior of handleDropChocolate on invalid drops -/

/-- C6 counterexample: the claim says a drop whose `boxId` matches no
existing box leaves both the items and the boxes unchanged, but
`handleDropChocolate` still marks the dropped chocolate as placed: with one
unplaced chocolate and no boxes at all, the chocolate pool changes. -/
theorem drop_unknown_box_not_noop :
    (handleDropChocolate "box-x" { id := 0, type := ChocType.cocoa, placed := false }
      [{ id := 0, type := ChocType.cocoa, placed := false }] []).1
    ≠ [{ id := 0, type := ChocType.cocoa, placed := false }] := by
  decide

/-- C6 (amended): `handleDropChocolate` is a full silent no-op when the
dropped item is already marked placed; when the target `boxId` matches no
existing box, the box collection is unchanged, but the chocolate pool is
still updated — the item with the dropped id is marked placed anyway. -/
theorem handleDropChocolate_noop_cases (boxId : String) (c : Chocolate)
    (cs : List Chocolate) (bs : List Box) :
    (c.placed = true → handleDropChocolate boxId c cs bs = (cs, bs))
    ∧ (c.placed = false → boxId ∉ bs.map Box.id →
        (handleDropChocolate boxId c cs bs).2 = bs
        ∧ (handleDropChocolate boxId c cs bs).1 = cs.map (setPlaced c.id)) := by
  constructor
  · intro h
    simp [handleDropChocolate, h]
  · intro h hbox
    refine ⟨?_, by simp [handleDropChocolate, h]⟩
    simp only [handleDropChocolate, h, Bool.false_eq_true, if_false]
    refine map_id_of_eq _ _ fun b hb => ?_
    unfold appendChoc
    rw [if_neg]
    intro he
    exact hbox (he ▸ List.mem_map_of_mem Box.id hb)

/-- Witness for C6 (amended): a placed item is ignored entirely, and a drop
on a missing box id leaves the boxes as they were. -/
theorem handleDropChocolate_noop_cases_witness :
    handleDropChocolate "box-a" { id := 0, type := ChocType.cocoa, placed := true }
      [{ id := 0, type := ChocType.cocoa, placed := true }] []
      = ([{ id := 0, type := ChocType.cocoa, placed := true }], [])
    ∧ (handleDropChocolate "box-x" { id := 1, type := ChocType.cocoa, placed := false }
        [] [{ id := "box-a", chocolates := [], color := none }]).2
      = [{ id := "box-a", chocolates := [], color := none }] :=
  ⟨(handleDropChocolate_noop_cases "box-a" { id := 0, type := ChocType.cocoa, placed := true }
      [{ id := 0, type := ChocType.cocoa, placed := true }] []).1 rfl,
   ((handleDropChocolate_noop_cases "box-x" { id := 1, type := ChocType.cocoa, placed := false }
      [] [{ id := "box-a", chocolates := [], color := none }]).2 rfl (by decide)).1⟩

/-! ## C9: addBox appends; the preset-level guard lives in the UI -/

/-- C9 counterexample: the claim says an `addBox` call on a preset-box level
is silently rejected with the box collection unchanged, but the `addBox`
function has no preset-level check: on level 1 (preset boxes) it still
appends a new empty box. -/
theorem addBox_appends_on_preset_level :
    (currentLevelData 1).presetBoxes = true
    ∧ addBox "box-new" presetDemoBoxes ≠ presetDemoBoxes
    ∧ addBox "box-new" presetDemoBoxes
        = presetDemoBoxes ++ [{ id := "box-new", chocolates := [], color := none }] := by
  decide

/-- C9 (amended): the `addBox` function unconditionally appends exactly one
new empty box (no chocolates, no color) and performs no preset-level check;
the rejection on preset levels happens in the UI, which renders the add-box
button disabled and without a click handler, so the user-level add-box
action leaves the box collection unchanged there and invokes `addBox` only
on free levels. -/
theorem addBox_appends_ui_guards_preset (lvl : Level) (newId : String) (bs : List Box) :
    addBox newId bs = bs ++ [{ id := newId, chocolates := [], color := none }]
    ∧ (lvl.presetBoxes = true → clickAddBox lvl newId bs = bs)
    ∧ (lvl.presetBoxes = false → clickAddBox lvl newId bs = addBox newId bs) := by
  refine ⟨rfl, fun h => ?_, fun h => ?_⟩ <;> simp [clickAddBox, h]

/-- Witness for C9 (amended): on level 1 the user-level add-box action is a
no-op. -/
theorem addBox_appends_ui_guards_preset_witness :
    clickAddBox (currentLevelData 1) "box-new" presetDemoBoxes = presetDemoBoxes :=
  (addBox_appends_ui_guards_preset (currentLevelData 1) "box-new" presetDemoBoxes).2.1
    (by decide)

/-! ## C7: coloring completion awards points and folds the run score -/

/-- C7: when coloring completes — the boxes are non-empty and every box
carries a (non-null) color, necessarily one of the palette colors the game
assigns — the phase becomes Completed and the fixed 10 points are added to
the run score; when the current level is the last level (4) the run score is
additionally folded into the lifetime total exactly once, so that
`totalScore` afterwards equals the prior `totalScore` plus the (updated) run
score, and on any other level `totalScore` is untouched. -/
theorem coloring_complete_scoring (gs : GameState) (s : PageState)
    (hne : s.boxes ≠ [])
    (hcol : ∀ b ∈ s.boxes, ∃ cd ∈ COLORS, b.color = some cd.color) :
    (checkColoringComplete gs s).2.gamePhase = Phase.completed
    ∧ (checkColoringComplete gs s).1.score = gs.score + 10
    ∧ (gs.currentLevel = 4 →
        (checkColoringComplete gs s).1.totalScore
          = gs.totalScore + (checkColoringComplete gs s).1.score)
    ∧ (gs.currentLevel ≠ 4 →
        (checkColoringComplete gs s).1.totalScore = gs.totalScore) := by
  have hpal : ∀ cd ∈ COLORS, cd.color ≠ "" := by decide
  have hcc : isColoringComplete s.boxes = true := by
    unfold isColoringComplete
    rw [Bool.and_eq_true]
    refine ⟨decide_eq_true (List.length_pos.mpr hne), ?_⟩
    rw [List.all_eq_true]
    intro b hb
    rcases hcol b hb with ⟨cd, hcd, hbc⟩
    rw [hbc]
    simpa [jsTruthy] using hpal cd hcd
  have hlen : (LEVELS.length : Int) = 4 := by decide
  unfold checkColoringComplete
  rw [hcc, if_pos rfl, hlen]
  by_cases hl : gs.currentLevel = 4
  · rw [if_pos hl]
    refine ⟨rfl, rfl, fun _ => ?_, fun h => absurd hl h⟩
    simp [completeRun, awardPoints]
  · rw [if_neg hl]
    exact ⟨rfl, rfl, fun h => absurd h hl, fun _ => rfl⟩

/-- Witness for C7: on level 4 with run score 30 and lifetime total 12,
completing the coloring yields run score 40 and lifetime total 52. -/
theorem coloring_complete_scoring_witness :
    (checkColoringComplete c7GameState c7State).2.gamePhase = Phase.completed
    ∧ (checkColoringComplete c7GameState c7State).1.score = 30 + 10
    ∧ (checkColoringComplete c7GameState c7State).1.totalScore
        = 12 + (checkColoringComplete c7GameState c7State).1.score := by
  have h := coloring_complete_scoring c7GameState c7State (by decide) (by decide)
  exact ⟨h.1, h.2.1, h.2.2.1 rfl⟩

/-! ## C10: totalScore is monotonically non-decreasing -/

theorem totalScore_mono_aux (ops : List AppOp) :
    ∀ gs : GameState, (∀ p, AppOp.awardPoints p ∈ ops → p = 10) → 0 ≤ gs.score →
      gs.totalScore ≤ (applyAppOps gs ops).totalScore
      ∧ 0 ≤ (applyAppOps gs ops).score := by
  induction ops with
  | nil => exact fun gs _ hs => ⟨le_refl _, hs⟩
  | cons op t ih =>
      intro gs hp hs
      have hpt : ∀ p, AppOp.awardPoints p ∈ t → p = 10 :=
        fun p hm => hp p (List.mem_cons_of_mem _ hm)
      show gs.totalScore ≤ (applyAppOps (applyAppOp gs op) t).totalScore
        ∧ 0 ≤ (applyAppOps (applyAppOp gs op) t).score
      cases op with
      | startGame => exact ih (applyAppOp gs AppOp.startGame) hpt (by simp [applyAppOp, startGame])
      | nextLevel => exact ih (applyAppOp gs AppOp.nextLevel) hpt hs
      | resetGame => exact ih (applyAppOp gs AppOp.resetGame) hpt (by simp [applyAppOp, resetGame])
      | awardPoints p =>
          have hp10 : p = 10 := hp p (List.mem_cons_self _ _)
          exact ih (applyAppOp gs (AppOp.awardPoints p)) hpt
            (by simp [applyAppOp, awardPoints, hp10]; omega)
      | completeRun =>
          have h := ih (applyAppOp gs AppOp.completeRun) hpt
            (by simpa [applyAppOp, completeRun] using hs)
          refine ⟨le_trans ?_ h.1, h.2⟩
          simp [applyAppOp, completeRun]
          omega

/-- C10: over every sequence of `App.tsx` operations in which `awardPoints`
is only ever invoked with 10 (as the sole call site does), starting from any
state with a non-negative run score, `totalScore` is monotonically
non-decreasing and the run score stays non-negative; moreover `completeRun`
is the only operation that modifies `totalScore` — it adds the current run
score — and the initial run score is 0. -/
theorem totalScore_monotone (ops : List AppOp) (gs : GameState)
    (hp : ∀ p, AppOp.awardPoints p ∈ ops → p = 10)
    (hs : 0 ≤ gs.score) :
    gs.totalScore ≤ (applyAppOps gs ops).totalScore
    ∧ 0 ≤ (applyAppOps gs ops).score
    ∧ (∀ gs2 : GameState, (completeRun gs2).totalScore = gs2.totalScore + gs2.score)
    ∧ (∀ (gs2 : GameState) (op : AppOp), op ≠ AppOp.completeRun →
        (applyAppOp gs2 op).totalScore = gs2.totalScore)
    ∧ initialGameState.score = 0 := by
  refine ⟨(totalScore_mono_aux ops gs hp hs).1, (totalScore_mono_aux ops gs hp hs).2,
    fun gs2 => rfl, fun gs2 op hop => ?_, rfl⟩
  cases op with
  | startGame => rfl
  | nextLevel => rfl
  | resetGame => rfl
  | awardPoints p => rfl
  | completeRun => exact absurd rfl hop

/-- Witness for C10: a concrete run from the initial state. -/
theorem totalScore_monotone_witness :
    initialGameState.totalScore
      ≤ (applyAppOps initialGameState
          [AppOp.startGame, AppOp.awardPoints 10, AppOp.completeRun,
           AppOp.nextLevel, AppOp.resetGame]).totalScore :=
  (totalScore_monotone
    [AppOp.startGame, AppOp.awardPoints 10, AppOp.completeRun,
     AppOp.nextLevel, AppOp.resetGame]
    initialGameState (by intro p hm; simpa using hm) (by decide)).1

/-! ## C5: the placement sum invariant -/

/-- C5 counterexample: the claim quantifies over every sequence of
drop/placement operations, but a drop whose target box id matches no
existing box breaks the sum invariant: starting from a freshly initialized
level 2 (8 chocolates, no boxes), adding one box and then dropping
chocolate 0 onto the non-existent box id `missing` marks the chocolate
placed without putting it in any box, so boxed + unplaced = 7 ≠ 8 and
placed = 1 ≠ 0 = boxed. -/
theorem drop_unknown_box_breaks_invariant :
    boxSum c5Demo.boxes + unplacedCount c5Demo.chocolates ≠ (currentLevelData 2).chocolates
    ∧ placedCount c5Demo.chocolates ≠ boxSum c5Demo.boxes := by
  decide

theorem setPlaced_id_eq (i : Nat) (c : Chocolate) : (setPlaced i c).id = c.id := by
  unfold setPlaced
  split <;> rfl

theorem setPlaced_eq_of_ne (i : Nat) (c : Chocolate) (h : c.id ≠ i) :
    setPlaced i c = c := by
  unfold setPlaced
  rw [if_neg h]

theorem map_setPlaced_ids (i : Nat) (cs : List Chocolate) :
    (cs.map (setPlaced i)).map Chocolate.id = cs.map Chocolate.id := by
  simp [List.map_map, Function.comp_def, setPlaced_id_eq]

theorem appendChoc_id_eq (boxId : String) (c : Chocolate) (b : Box) :
    (appendChoc boxId c b).id = b.id := by
  unfold appendChoc
  split <;> rfl

theorem map_appendChoc_ids (boxId : String) (c : Chocolate) (bs : List Box) :
    (bs.map (appendChoc boxId c)).map Box.id = bs.map Box.id := by
  simp [List.map_map, Function.comp_def, appendChoc_id_eq]

theorem placedCount_cons (c : Chocolate) (t : List Chocolate) :
    placedCount (c :: t) = (if c.placed then 1 else 0) + placedCount t := by
  unfold placedCount
  cases hc : c.placed
  · simp [List.filter_cons, hc]
  · simp [List.filter_cons, hc]
    omega

theorem placedCount_map_setPlaced (cs : List Chocolate) (i : Nat)
    (hnd : (cs.map Chocolate.id).Nodup)
    (hpc : ∃ pc ∈ cs, pc.id = i ∧ pc.placed = false) :
    placedCount (cs.map (setPlaced i)) = placedCount cs + 1 := by
  induction cs with
  | nil => simp at hpc
  | cons c t ih =>
      rw [List.map_cons, List.nodup_cons] at hnd
      rcases hpc with ⟨pc, hmem, hid, hpl⟩
      rcases List.mem_cons.mp hmem with rfl | hmemt
      · have hti : ∀ x ∈ t, setPlaced i x = x := by
          intro x hx
          refine setPlaced_eq_of_ne i x fun hxe => ?_
          exact hnd.1 (hid ▸ hxe ▸ List.mem_map_of_mem Chocolate.id hx)
        rw [List.map_cons, map_id_of_eq t _ hti, placedCount_cons, placedCount_cons]
        unfold setPlaced
        rw [if_pos hid, hpl]
        simp
        omega
      · have hne : pc.id ≠ c.id := by
          intro he
          exact hnd.1 (he ▸ List.mem_map_of_mem Chocolate.id hmemt)
        have hcne : c.id ≠ i := fun he => hne (hid ▸ he.symm) |>.elim
        rw [List.map_cons, setPlaced_eq_of_ne i c hcne, placedCount_cons, placedCount_cons,
          ih hnd.2 ⟨pc, hmemt, hid, hpl⟩]
        omega

theorem boxSum_cons (b : Box) (t : List Box) :
    boxSum (b :: t) = b.chocolates.length + boxSum t := by
  simp [boxSum]

theorem boxSum_map_appendChoc (bs : List Box) (boxId : String) (c : Chocolate)
    (hnd : (bs.map Box.id).Nodup) (hmem : boxId ∈ bs.map Box.id) :
    boxSum (bs.map (appendChoc boxId c)) = boxSum bs + 1 := by
  induction bs with
  | nil => simp at hmem
  | cons b t ih =>
      rw [List.map_cons, List.nodup_cons] at hnd
      rw [List.map_cons] at hmem
      rw [List.map_cons, boxSum_cons, boxSum_cons]
      rcases List.mem_cons.mp hmem with heq | hmemt
      · have hti : ∀ x ∈ t, appendChoc boxId c x = x := by
          intro x hx
          unfold appendChoc
          rw [if_neg]
          intro hxe
          exact hnd.1 (heq ▸ hxe ▸ List.mem_map_of_mem Box.id hx)
        rw [map_id_of_eq t _ hti]
        unfold appendChoc
        rw [if_pos heq.symm]
        simp
        omega
      · have hbne : b.id ≠ boxId := by
          intro he
          exact hnd.1 (he ▸ hmemt)
        have hb : appendChoc boxId c b = b := by
          unfold appendChoc
          rw [if_neg hbne]
        rw [hb, ih hnd.2 hmemt]
        omega

theorem placedCount_eq_zero_of (cs : List Chocolate) (h : ∀ c ∈ cs, c.placed = false) :
    placedCount cs = 0 := by
  induction cs with
  | nil => rfl
  | cons c t ih =>
      rw [placedCount_cons, h c (by simp), ih fun x hx => h x (by simp [hx])]
      simp

theorem placedCount_unplaceAll (cs : List Chocolate) :
    placedCount (cs.map fun c => { c with placed := false }) = 0 := by
  refine placedCount_eq_zero_of _ fun c hc => ?_
  rcases List.mem_map.mp hc with ⟨c0, _, rfl⟩
  rfl

theorem unplaceAll_ids (cs : List Chocolate) :
    ((cs.map fun c => { c with placed := false }).map Chocolate.id)
      = cs.map Chocolate.id := by
  simp [List.map_map, Function.comp_def]

theorem boxSum_clearAll (bs : List Box) :
    boxSum (bs.map fun b => { b with chocolates := [], color := none }) = 0 := by
  induction bs with
  | nil => rfl
  | cons b t ih => simpa [boxSum_cons] using ih

theorem clearAll_ids (bs : List Box) :
    ((bs.map fun b => { b with chocolates := [], color := none }).map Box.id)
      = bs.map Box.id := by
  simp [List.map_map, Function.comp_def]

theorem setBoxColor_chocolates (boxId : String) (col : ColorDef) (b : Box) :
    (setBoxColor boxId col b).chocolates = b.chocolates := by
  unfold setBoxColor
  split <;> rfl

theorem setBoxColor_id (boxId : String) (col : ColorDef) (b : Box) :
    (setBoxColor boxId col b).id = b.id := by
  unfold setBoxColor
  split <;> rfl

theorem boxSum_handleDropColor (boxId : String) (col : ColorDef) (bs : List Box) :
    boxSum (handleDropColor boxId col bs) = boxSum bs := by
  simp [boxSum, handleDropColor, List.map_map, Function.comp_def, setBoxColor_chocolates]

theorem handleDropColor_ids (boxId : String) (col : ColorDef) (bs : List Box) :
    (handleDropColor boxId col bs).map Box.id = bs.map Box.id := by
  simp [handleDropColor, List.map_map, Function.comp_def, setBoxColor_id]

theorem mkChocolates_ids (n : Nat) :
    (mkChocolates n).map Chocolate.id = List.range n := by
  simp [mkChocolates, List.map_map, Function.comp_def]

theorem mkChocolates_length (n : Nat) : (mkChocolates n).length = n := by
  simp [mkChocolates]

theorem mkChocolates_placedCount (n : Nat) : placedCount (mkChocolates n) = 0 := by
  refine placedCount_eq_zero_of _ fun c hc => ?_
  rcases List.mem_map.mp hc with ⟨i, _, rfl⟩
  rfl

theorem boxSum_presetBoxList (ids : List String) : boxSum (presetBoxList ids) = 0 := by
  induction ids with
  | nil => rfl
  | cons i t ih => simpa [presetBoxList, boxSum_cons] using ih

theorem presetBoxList_ids (ids : List String) :
    (presetBoxList ids).map Box.id = ids := by
  simp [presetBoxList, List.map_map, Function.comp_def]

theorem boxSum_addBox (newId : String) (bs : List Box) :
    boxSum (addBox newId bs) = boxSum bs := by
  simp [boxSum, addBox]

theorem addBox_ids (newId : String) (bs : List Box) :
    (addBox newId bs).map Box.id = bs.map Box.id ++ [newId] := by
  simp [addBox]


theorem reach_inv {lvl : Level} {s : PageState} (h : Reach lvl s) : PoolBoxInv lvl s := by
  induction h with
  | init shuffled presetIds hperm hids =>
      have hlen : shuffled.length = lvl.chocolates := by
        rw [hperm.length_eq, mkChocolates_length]
      have hplaced : placedCount shuffled = 0 := by
        unfold placedCount
        rw [(hperm.filter fun c => c.placed).length_eq]
        exact mkChocolates_placedCount lvl.chocolates
      have hunplaced : unplacedCount shuffled = lvl.chocolates := by
        have hpu := placed_add_unplaced shuffled
        omega
      have hcnd : (shuffled.map Chocolate.id).Nodup := by
        refine (hperm.map Chocolate.id).nodup_iff.mpr ?_
        rw [mkChocolates_ids]
        exact List.nodup_range lvl.chocolates
      unfold PoolBoxInv initState
      by_cases hp : lvl.presetBoxes = true
      · simp only [hp, if_true]
        have h0 := boxSum_presetBoxList presetIds
        refine ⟨by omega, by rw [hplaced, boxSum_presetBoxList], hcnd, ?_⟩
        rw [presetBoxList_ids]
        exact hids
      · rw [Bool.not_eq_true] at hp
        simp only [hp, Bool.false_eq_true, if_false]
        have h0 : boxSum ([] : List Box) = 0 := rfl
        exact ⟨by omega, by rw [hplaced, h0], hcnd, List.nodup_nil⟩
  | dropChocolate s boxId c hs hbox hunpl hpool ih =>
      obtain ⟨h1, h2, h3, h4⟩ := ih
      have happ : applyOp lvl s (Op.dropChocolate boxId c)
          = { s with chocolates := s.chocolates.map (setPlaced c.id),
                     boxes := s.boxes.map (appendChoc boxId c) } := by
        simp [applyOp, handleDropChocolate, hunpl]
      rw [happ]
      have hpc : placedCount (s.chocolates.map (setPlaced c.id))
          = placedCount s.chocolates + 1 :=
        placedCount_map_setPlaced _ _ h3 hpool
      have hbs : boxSum (s.boxes.map (appendChoc boxId c)) = boxSum s.boxes + 1 :=
        boxSum_map_appendChoc _ _ _ h4 hbox
      have hlen : (s.chocolates.map (setPlaced c.id)).length = s.chocolates.length :=
        List.length_map _ _
      have hold := placed_add_unplaced s.chocolates
      have hnew := placed_add_unplaced (s.chocolates.map (setPlaced c.id))
      refine ⟨?_, ?_, ?_, ?_⟩
      · show boxSum (s.boxes.map (appendChoc boxId c))
            + unplacedCount (s.chocolates.map (setPlaced c.id)) = lvl.chocolates
        omega
      · show placedCount (s.chocolates.map (setPlaced c.id))
          = boxSum (s.boxes.map (appendChoc boxId c))
        omega
      · show ((s.chocolates.map (setPlaced c.id)).map Chocolate.id).Nodup
        rw [map_setPlaced_ids]
        exact h3
      · show ((s.boxes.map (appendChoc boxId c)).map Box.id).Nodup
        rw [map_appendChoc_ids]
        exact h4
  | dropColor s boxId col hs ih =>
      obtain ⟨h1, h2, h3, h4⟩ := ih
      have hb := boxSum_handleDropColor boxId col s.boxes
      refine ⟨?_, ?_, h3, ?_⟩
      · show boxSum (handleDropColor boxId col s.boxes) + unplacedCount s.chocolates
            = lvl.chocolates
        omega
      · show placedCount s.chocolates = boxSum (handleDropColor boxId col s.boxes)
        omega
      show ((handleDropColor boxId col s.boxes).map Box.id).Nodup
      rw [handleDropColor_ids]
      exact h4
  | addBox s newId hs hfresh ih =>
      obtain ⟨h1, h2, h3, h4⟩ := ih
      have hb := boxSum_addBox newId s.boxes
      refine ⟨?_, ?_, h3, ?_⟩
      · show boxSum (addBox newId s.boxes) + unplacedCount s.chocolates = lvl.chocolates
        omega
      · show placedCount s.chocolates = boxSum (addBox newId s.boxes)
        omega
      show ((addBox newId s.boxes).map Box.id).Nodup
      rw [addBox_ids]
      exact (List.perm_append_singleton newId (s.boxes.map Box.id)).nodup_iff.mpr
        (List.nodup_cons.mpr ⟨hfresh, h4⟩)
  | clearBoxes s hs ih =>
      obtain ⟨h1, h2, h3, h4⟩ := ih
      by_cases hp : lvl.presetBoxes = true
      · have happ : applyOp lvl s Op.clearBoxes = s := by
          simp [applyOp, clearBoxes, hp]
        rw [happ]
        exact ⟨h1, h2, h3, h4⟩
      · rw [Bool.not_eq_true] at hp
        have happ : applyOp lvl s Op.clearBoxes
            = { s with boxes := [],
                       chocolates := s.chocolates.map fun c => { c with placed := false },
                       selectedColor := none,
                       gamePhase := Phase.packing } := by
          simp [applyOp, clearBoxes, hp]
        rw [happ]
        have h0 : boxSum ([] : List Box) = 0 := rfl
        have hz := placedCount_unplaceAll s.chocolates
        have hl : (s.chocolates.map fun c => { c with placed := false }).length
            = s.chocolates.length := List.length_map _ _
        have ho := placed_add_unplaced s.chocolates
        have hn := placed_add_unplaced (s.chocolates.map fun c => { c with placed := false })
        refine ⟨?_, ?_, ?_, List.nodup_nil⟩
        · show boxSum ([] : List Box)
              + unplacedCount (s.chocolates.map fun c => { c with placed := false })
              = lvl.chocolates
          omega
        · show placedCount (s.chocolates.map fun c => { c with placed := false })
            = boxSum ([] : List Box)
          omega
        show (((s.chocolates.map fun c => { c with placed := false }).map Chocolate.id)).Nodup
        rw [unplaceAll_ids]
        exact h3
  | checkPacking s hs ih =>
      obtain ⟨h1, h2, h3, h4⟩ := ih
      by_cases hA : placedCount s.chocolates = lvl.chocolates ∧ 0 < s.boxes.length
      · by_cases hB : (s.boxes.all fun b =>
            b.chocolates.length == lvl.chocolates / s.boxes.length) = true
        · have happ : applyOp lvl s Op.checkPacking
              = { s with gamePhase := Phase.coloring, message := packingSuccessMessage } := by
            simp [applyOp, checkPackingComplete, hA, hB]
          rw [happ]
          exact ⟨h1, h2, h3, h4⟩
        · rw [Bool.not_eq_true] at hB
          by_cases hP : lvl.presetBoxes = true
          · have happ : applyOp lvl s Op.checkPacking = s := by
              simp [applyOp, checkPackingComplete, hA, hB, hP]
            rw [happ]
            exact ⟨h1, h2, h3, h4⟩
          · rw [Bool.not_eq_true] at hP
            have happ : applyOp lvl s Op.checkPacking
                = { s with message := packingErrorMessage,
                           boxes := s.boxes.map fun b => { b with chocolates := [], color := none },
                           chocolates := s.chocolates.map fun c => { c with placed := false },
                           selectedColor := none,
                           gamePhase := Phase.packing } := by
              simp [applyOp, checkPackingComplete, hA, hB, hP]
            rw [happ]
            have h0 := boxSum_clearAll s.boxes
            have hz := placedCount_unplaceAll s.chocolates
            have hl : (s.chocolates.map fun c => { c with placed := false }).length
                = s.chocolates.length := List.length_map _ _
            have ho := placed_add_unplaced s.chocolates
            have hn := placed_add_unplaced
              (s.chocolates.map fun c => { c with placed := false })
            refine ⟨?_, ?_, ?_, ?_⟩
            · show boxSum (s.boxes.map fun b => { b with chocolates := [], color := none })
                  + unplacedCount (s.chocolates.map fun c => { c with placed := false })
                  = lvl.chocolates
              omega
            · show placedCount (s.chocolates.map fun c => { c with placed := false })
                = boxSum (s.boxes.map fun b => { b with chocolates := [], color := none })
              omega
            · show (((s.chocolates.map fun c => { c with placed := false }).map
                  Chocolate.id)).Nodup
              rw [unplaceAll_ids]
              exact h3
            · show (((s.boxes.map fun b => { b with chocolates := [], color := none }).map
                  Box.id)).Nodup
              rw [clearAll_ids]
              exact h4
      · have happ : applyOp lvl s Op.checkPacking = s := by
          simp [applyOp, checkPackingComplete, hA]
        rw [happ]
        exact ⟨h1, h2, h3, h4⟩
  | checkColoring s hs ih =>
      show PoolBoxInv lvl (checkColoringPage s)
      unfold checkColoringPage
      split
      · exact ih
      · exact ih
  | clearMessage s hs ih =>
      exact ih

/-- C5 (amended): for every sequence of operations from a freshly
initialized level — chocolate drops that carry a currently unplaced
warehouse chocolate and target an existing box (as the drag-and-drop UI
guarantees), color drops, box creation with a fresh id, clear-boxes, the
automatic packing/coloring checks and the delayed message clear, in any
order — the number of chocolates held in boxes plus the number of unplaced
chocolates always equals the level's item count, and the count of placed
chocolates always equals the total number of chocolates held in boxes. -/
theorem placement_sum_invariant (lvl : Level) (s : PageState) (h : Reach lvl s) :
    boxSum s.boxes + unplacedCount s.chocolates = lvl.chocolates
    ∧ placedCount s.chocolates = boxSum s.boxes :=
  ⟨(reach_inv h).1, (reach_inv h).2.1⟩

/-- Witness for C5 (amended) at a freshly initialized level 2. -/
theorem placement_sum_invariant_witness :
    boxSum (initState (currentLevelData 2)
        (mkChocolates (currentLevelData 2).chocolates) []).boxes
      + unplacedCount (initState (currentLevelData 2)
        (mkChocolates (currentLevelData 2).chocolates) []).chocolates
      = (currentLevelData 2).chocolates :=
  (placement_sum_invariant (currentLevelData 2) _
    (Reach.init _ [] (List.Perm.refl _) List.nodup_nil)).1
